import Mathlib

/-!
Shallow embedding of the segpy-lite catalog core (`segpy/catalog.py`), the trace
scanner (`toolkit.py`) and the numpy extraction front-end
(`segpy-ext/segpy-numpy/segpy_numpy/extract.py`), together with theorems checking
the library's specification against this code.

Conventions used throughout the embedding:
* Python `int` is modelled by `Int`; Python `%` is `Int.fmod` and `//` is
  `Int.fdiv` (both take the sign of the divisor / round towards minus infinity,
  exactly like Python).
* `fractions.Fraction` is modelled by `ℚ` (exact rational arithmetic).
* code that can raise is modelled with `Except PyErr`; the Python `None`
  sentinel returned by `CatalogBuilder.create` is `Option.none` inside the
  `Except.ok` payload.
* `list.sort(key=lambda iv: iv[0])` (a stable sort comparing keys only) is
  modelled by `List.insertionSort` on a key-only `≤` relation, which is stable
  and structurally recursive.
-/

/-- The Python exception kinds that the embedded code can raise. -/
inductive PyErr where
  | keyError
  | valueError
  | indexError
  | typeError
  | assertionError
  | zeroDivisionError
deriving DecidableEq, Repr

instance {ε α : Type} [DecidableEq ε] [DecidableEq α] : DecidableEq (Except ε α) := fun a b =>
  match a, b with
  | .ok x, .ok y =>
    if h : x = y then .isTrue (by rw [h]) else .isFalse (by intro hc; cases hc; exact h rfl)
  | .error x, .error y =>
    if h : x = y then .isTrue (by rw [h]) else .isFalse (by intro hc; cases hc; exact h rfl)
  | .ok _, .error _ => .isFalse (by intro hc; cases hc)
  | .error _, .ok _ => .isFalse (by intro hc; cases hc)

/-- Modelled from the spec: `segpy.util.contains_duplicates` (module `segpy/util.py`
is not under `src/`).  Per the spec's builder algorithm, it reports whether the key
series contains a duplicate. -/
def contains_duplicates {α : Type} [DecidableEq α] (items : List α) : Bool :=
  items.dedup.length ≠ items.length

/-- Helper for `measure_stride`: do all successive differences of the list equal `d`? -/
def hasStride (d : Int) : List Int → Bool
  | x :: y :: rest => (y - x == d) && hasStride d (y :: rest)
  | _ => true

/-- Modelled from the spec: `segpy.util.measure_stride` (module `segpy/util.py` is not
under `src/`).  Spec: returns 0 if all elements are equal (also for length one),
returns the common difference `d` if successive differences are all equal and
non-zero, and otherwise returns none. -/
def measure_stride : List Int → Option Int
  | x :: y :: rest =>
    if hasStride (y - x) (x :: y :: rest) then some (y - x) else none
  | _ => some 0

/-- Modelled from the spec: `segpy.util.minmax` (module `segpy/util.py` is not under
`src/`): the (minimum, maximum) of a series.  The builder only applies it to series
with at least two elements; the empty case is junk. -/
def minmax : List Int → Int × Int
  | [] => (0, 0)
  | x :: xs => (xs.foldl min x, xs.foldl max x)

/-- Modelled from the spec: `segpy.sorted_set.SortedFrozenSet` (module
`segpy/sorted_set.py` is not under `src/`): an immutable sorted set of the given
keys, iterated in ascending order. -/
def sortedFrozenSet (keys : List Int) : List Int :=
  (List.insertionSort (· ≤ ·) keys).dedup

/-- One update step of a Python `OrderedDict`: an existing key keeps its position and
gets the new value, a new key is appended. -/
def orderedDictUpd {α β : Type} [DecidableEq α] (acc : List (α × β)) (k : α) (v : β) :
    List (α × β) :=
  if k ∈ acc.map Prod.fst then
    acc.map (fun p => if p.1 = k then (p.1, v) else p)
  else acc ++ [(k, v)]

/-- `collections.OrderedDict(items)` as an insertion-ordered association list. -/
def orderedDict {α β : Type} [DecidableEq α] (items : List (α × β)) : List (α × β) :=
  items.foldl (fun acc kv => orderedDictUpd acc kv.1 kv.2) []

/-- `range(start, stop, step)`: number of elements (for `step = 0` Python raises; the
embedded catalogs only build ranges with non-zero stride). -/
def pyRangeLen (start stop step : Int) : Nat :=
  if 0 < step then (((stop - start) + step - 1).fdiv step).toNat
  else if step < 0 then (((start - stop) + (-step) - 1).fdiv (-step)).toNat
  else 0

/-- Python `range(start, stop, step)` as a list. -/
def pyRange (start stop step : Int) : List Int :=
  (List.range (pyRangeLen start stop step)).map (fun i : Nat => start + (i : Int) * step)

/-- The one-dimensional catalog variants of `segpy/catalog.py`:
`DictionaryCatalog`, `RegularConstantCatalog`, `ConstantCatalog`, `RegularCatalog`
and `LinearRegularCatalog`, each holding the state set up by its `__init__`. -/
inductive Catalog1 where
  | dictionary (items : List (Int × Int))
  | regularConstant (key_min key_max key_stride value : Int)
  | constant (keys : List Int) (value : Int)
  | regular (key_min key_max key_stride : Int) (values : List Int)
  | linearRegular (key_min key_max key_stride value_start value_stop value_stride : Int)
deriving DecidableEq, Repr

/-- `RegularConstantCatalog.__init__`: rejects a key range that is not a multiple of
the stride (`ValueError`); `%` by zero is Python's `ZeroDivisionError`. -/
def RegularConstantCatalog.init (key_min key_max key_stride value : Int) :
    Except PyErr Catalog1 :=
  if key_stride = 0 then .error .zeroDivisionError
  else if (key_max - key_min).fmod key_stride ≠ 0 then .error .valueError
  else .ok (.regularConstant key_min key_max key_stride value)

/-- `RegularCatalog.__init__`: checks the stride-multiple condition and that the
derived number of keys equals the number of values. -/
def RegularCatalog.init (key_min key_max key_stride : Int) (values : List Int) :
    Except PyErr Catalog1 :=
  if key_stride = 0 then .error .zeroDivisionError
  else if (key_max - key_min).fmod key_stride ≠ 0 then .error .valueError
  else if 1 + (key_max - key_min).fdiv key_stride ≠ (values.length : Int) then .error .valueError
  else .ok (.regular key_min key_max key_stride values)

/-- `LinearRegularCatalog.__init__`: checks both stride-multiple conditions, equal
derived key/value counts, and finally builds `Fraction(value_stop - value_start,
key_max - key_min)` (raising `ZeroDivisionError` when the key range is zero). -/
def LinearRegularCatalog.init
    (key_min key_max key_stride value_start value_stop value_stride : Int) :
    Except PyErr Catalog1 :=
  if key_stride = 0 then .error .zeroDivisionError
  else if (key_max - key_min).fmod key_stride ≠ 0 then .error .valueError
  else if value_stride = 0 then .error .zeroDivisionError
  else if (value_stop - value_start).fmod value_stride ≠ 0 then .error .valueError
  else if 1 + (key_max - key_min).fdiv key_stride ≠
      1 + (value_stop - value_start).fdiv value_stride then .error .valueError
  else if key_max - key_min = 0 then .error .zeroDivisionError
  else .ok (.linearRegular key_min key_max key_stride value_start value_stop value_stride)

/-- `__getitem__` of each 1D catalog variant.  For `LinearRegularCatalog` the value is
computed with the exact rational `m = (value_stop - value_start)/(key_max - key_min)`
and the source's `assert v.denominator == 1` is modelled as `.error .assertionError`
when the rational is not integral.  (For `RegularCatalog`, a Python negative index
would wrap around; a negative index with a non-empty value list is unreachable from
the bounds check, so plain out-of-range indexing is reported as `IndexError`.) -/
def Catalog1.getitem : Catalog1 → Int → Except PyErr Int
  | .dictionary items, key =>
    match items.lookup key with
    | some v => .ok v
    | none => .error .keyError
  | .regularConstant key_min key_max key_stride value, key =>
    if ¬(key_min ≤ key ∧ key ≤ key_max) then .error .keyError
    else if key_stride = 0 then .error .zeroDivisionError
    else if (key - key_min).fmod key_stride ≠ 0 then .error .keyError
    else .ok value
  | .constant keys value, key =>
    if key ∈ keys then .ok value else .error .keyError
  | .regular key_min key_max key_stride values, key =>
    if ¬(key_min ≤ key ∧ key ≤ key_max) then .error .keyError
    else if key_stride = 0 then .error .zeroDivisionError
    else if (key - key_min).fmod key_stride ≠ 0 then .error .keyError
    else
      match values[((key - key_min).fdiv key_stride).toNat]? with
      | some v => .ok v
      | none => .error .indexError
  | .linearRegular key_min key_max key_stride value_start value_stop _, key =>
    if ¬(key_min ≤ key ∧ key ≤ key_max) then .error .keyError
    else if key_stride = 0 then .error .zeroDivisionError
    else if (key - key_min).fmod key_stride ≠ 0 then .error .keyError
    else
      let m : ℚ := ((value_stop - value_start : Int) : ℚ) / ((key_max - key_min : Int) : ℚ)
      let v : ℚ := m * ((key - key_min : Int) : ℚ) + ((value_start : Int) : ℚ)
      if v.den = 1 then .ok v.num else .error .assertionError

/-- `__contains__` of each 1D catalog variant (the stride test is only reached when
the key is inside the bounds, mirroring Python's short-circuit `and`). -/
def Catalog1.contains : Catalog1 → Int → Except PyErr Bool
  | .dictionary items, key => .ok (items.lookup key).isSome
  | .regularConstant key_min key_max key_stride _, key =>
    if ¬(key_min ≤ key ∧ key ≤ key_max) then .ok false
    else if key_stride = 0 then .error .zeroDivisionError
    else .ok ((key - key_min).fmod key_stride = 0)
  | .constant keys _, key => .ok (decide (key ∈ keys))
  | .regular key_min key_max key_stride _, key =>
    if ¬(key_min ≤ key ∧ key ≤ key_max) then .ok false
    else if key_stride = 0 then .error .zeroDivisionError
    else .ok ((key - key_min).fmod key_stride = 0)
  | .linearRegular key_min key_max key_stride _ _ _, key =>
    if ¬(key_min ≤ key ∧ key ≤ key_max) then .ok false
    else if key_stride = 0 then .error .zeroDivisionError
    else .ok ((key - key_min).fmod key_stride = 0)

/-- `__len__` of each 1D catalog variant.  `RegularConstantCatalog.__len__` uses
Python true division `/`; its value is the integer `1 + (key_max - key_min)/stride`
whenever the construction-time stride-multiple check held, which is how it is
modelled here. -/
def Catalog1.len : Catalog1 → Except PyErr Int
  | .dictionary items => .ok items.length
  | .regularConstant key_min key_max key_stride _ =>
    if key_stride = 0 then .error .zeroDivisionError
    else .ok (1 + (key_max - key_min).fdiv key_stride)
  | .constant keys _ => .ok keys.length
  | .regular _ _ _ values => .ok values.length
  | .linearRegular key_min key_max key_stride _ _ _ =>
    if key_stride = 0 then .error .zeroDivisionError
    else .ok (1 + (key_max - key_min).fdiv key_stride)

/-- `__iter__` of each 1D catalog variant, as the list of keys it yields. -/
def Catalog1.iterKeys : Catalog1 → List Int
  | .dictionary items => items.map Prod.fst
  | .regularConstant key_min key_max key_stride _ => pyRange key_min (key_max + 1) key_stride
  | .constant keys _ => keys
  | .regular key_min key_max key_stride _ => pyRange key_min (key_max + 1) key_stride
  | .linearRegular key_min key_max key_stride _ _ _ => pyRange key_min (key_max + 1) key_stride

/-- Key-only comparison used by `create`'s `sort(key=lambda index_value: index_value[0])`
on one-dimensional (scalar) keys. -/
def keyLe (p q : Int × Int) : Prop := p.1 ≤ q.1

instance : DecidableRel keyLe := fun p q => inferInstanceAs (Decidable (p.1 ≤ q.1))

instance : IsTotal (Int × Int) keyLe := ⟨fun p q => le_total p.1 q.1⟩

instance : IsTrans (Int × Int) keyLe := ⟨fun _ _ _ h1 h2 => le_trans h1 h2⟩

/-- Strict key comparison on 1D entries (used to state sortedness of distinct keys). -/
def keyLt (p q : Int × Int) : Prop := p.1 < q.1

instance : DecidableRel keyLt := fun p q => inferInstanceAs (Decidable (p.1 < q.1))

instance : IsAntisymm (Int × Int) keyLt := ⟨fun _ _ h1 h2 => ((lt_asymm h1) h2).elim⟩

/-- `CatalogBuilder._create_catalog_1`: the 1D selector, taking the already sorted
entry list.  The final branch of the Python code is guarded by
`assert (index_stride is not None) and (value_stride is not None)`, so the
`(None, e≠0)` combination raises `AssertionError`.  Indexing `catalog[0]` on an
empty list would be an `IndexError` (unreachable from `create`). -/
def CatalogBuilder.create_catalog_1 (catalog : List (Int × Int)) :
    Except PyErr (Option Catalog1) :=
  match catalog with
  | [] => .error .indexError
  | first :: rest =>
    let lastPair := rest.getLastD first
    let index_min := first.1
    let index_max := lastPair.1
    let index_stride := measure_stride ((first :: rest).map Prod.fst)
    let value_start := first.2
    let value_stop := lastPair.2
    let value_stride := measure_stride ((first :: rest).map Prod.snd)
    match index_stride, value_stride with
    | none, none => .ok (some (.dictionary (orderedDict (first :: rest))))
    | some d, some e =>
      if e = 0 then
        if value_start ≠ value_stop then .error .assertionError
        else (RegularConstantCatalog.init index_min index_max d value_start).map some
      else (LinearRegularCatalog.init index_min index_max d value_start value_stop e).map some
    | none, some e =>
      if e = 0 then
        if value_start ≠ value_stop then .error .assertionError
        else .ok (some (.constant (sortedFrozenSet ((first :: rest).map Prod.fst)) value_start))
      else .error .assertionError
    | some d, none =>
      (RegularCatalog.init index_min index_max d ((first :: rest).map Prod.snd)).map some

/-- `CatalogBuilder.create` on one-dimensional (scalar integer) keys: fewer than two
entries fall back to a dictionary, otherwise sort by key, return the `None` sentinel
on duplicate keys, and delegate to the 1D selector. -/
def CatalogBuilder.create1 (catalog : List (Int × Int)) : Except PyErr (Option Catalog1) :=
  if catalog.length < 2 then .ok (some (.dictionary (orderedDict catalog)))
  else
    let sorted := List.insertionSort keyLe catalog
    if contains_duplicates (sorted.map Prod.fst) then .ok none
    else CatalogBuilder.create_catalog_1 sorted

/-- The two-dimensional catalog variants of `segpy/catalog.py`: `DictionaryCatalog`
over pair keys, and `RowMajorCatalog`. -/
inductive Catalog2 where
  | dictionary (items : List ((Int × Int) × Int))
  | rowMajor (i_min i_max j_min j_max c : Int)
deriving DecidableEq, Repr

/-- `RowMajorCatalog.__getitem__`, faithfully including the source's guard
`if not (i_min <= i <= i_max) and (j_min <= j <= j_max): raise KeyError`
(the `not` applies only to the first conjunct). -/
def Catalog2.getitem : Catalog2 → Int × Int → Except PyErr Int
  | .dictionary items, key =>
    match items.lookup key with
    | some v => .ok v
    | none => .error .keyError
  | .rowMajor i_min i_max j_min j_max c, (i, j) =>
    if ¬(i_min ≤ i ∧ i ≤ i_max) ∧ (j_min ≤ j ∧ j ≤ j_max) then .error .keyError
    else .ok ((i - i_min) * (j_max + 1 - j_min) + (j - j_min) + c)

/-- `__contains__` of the 2D catalog variants. -/
def Catalog2.contains : Catalog2 → Int × Int → Bool
  | .dictionary items, key => (items.lookup key).isSome
  | .rowMajor i_min i_max j_min j_max _, (i, j) =>
    decide ((i_min ≤ i ∧ i ≤ i_max) ∧ (j_min ≤ j ∧ j ≤ j_max))

/-- `__len__` of the 2D catalog variants; `RowMajorCatalog.__len__` is the source's
`(i_max - i_min) * (j_max + 1 - j_min)`. -/
def Catalog2.len : Catalog2 → Int
  | .dictionary items => items.length
  | .rowMajor i_min i_max j_min j_max _ => (i_max - i_min) * (j_max + 1 - j_min)

/-- `__iter__` of the 2D catalog variants; `RowMajorCatalog.__iter__` yields `(i, j)`
over the nested ranges. -/
def Catalog2.iterKeys : Catalog2 → List (Int × Int)
  | .dictionary items => items.map Prod.fst
  | .rowMajor i_min i_max j_min j_max _ =>
    (pyRange i_min (i_max + 1) 1).flatMap
      (fun i => (pyRange j_min (j_max + 1) 1).map (fun j => (i, j)))

/-- Loop of `CatalogBuilder._is_row_major`, threading the `diff` accumulator exactly
as the Python code does. -/
def CatalogBuilder.isRowMajorFrom (i_min j_min j_max : Int) (diff : Option Int) :
    List ((Int × Int) × Int) → Bool × Option Int
  | [] => (true, diff)
  | ((i, j), v) :: rest =>
    let proposed := (i - i_min) * (j_max + 1 - j_min) + (j - j_min)
    let current_diff := v - proposed
    match diff with
    | none => CatalogBuilder.isRowMajorFrom i_min j_min j_max (some current_diff) rest
    | some d =>
      if current_diff ≠ d then (false, none)
      else CatalogBuilder.isRowMajorFrom i_min j_min j_max (some d) rest

/-- `CatalogBuilder._is_row_major`. -/
def CatalogBuilder.is_row_major (catalog : List ((Int × Int) × Int))
    (i_min j_min j_max : Int) : Bool × Option Int :=
  CatalogBuilder.isRowMajorFrom i_min j_min j_max none catalog

/-- `CatalogBuilder._create_catalog_2`: the 2D selector, taking the already sorted
entry list.  (On an empty catalog the Python code would build a `RowMajorCatalog`
with `c = None`, which then fails on use; that branch is unreachable from `create`
and modelled as a `TypeError`.) -/
def CatalogBuilder.create_catalog_2 (catalog : List ((Int × Int) × Int)) :
    Except PyErr (Option Catalog2) :=
  let im := minmax (catalog.map (fun e => e.1.1))
  let jm := minmax (catalog.map (fun e => e.1.2))
  match CatalogBuilder.is_row_major catalog im.1 jm.1 jm.2 with
  | (true, some diff) => .ok (some (.rowMajor im.1 im.2 jm.1 jm.2 diff))
  | (true, none) => .error .typeError
  | (false, _) => .ok (some (.dictionary (orderedDict catalog)))

/-- Lexicographic `≤` on 2-tuples, Python's ordering of two-element tuples. -/
def ijLe (a b : Int × Int) : Prop := a.1 < b.1 ∨ (a.1 = b.1 ∧ a.2 ≤ b.2)

/-- Lexicographic `<` on 2-tuples. -/
def ijLt (a b : Int × Int) : Prop := a.1 < b.1 ∨ (a.1 = b.1 ∧ a.2 < b.2)

instance : DecidableRel ijLe := fun a b =>
  inferInstanceAs (Decidable (a.1 < b.1 ∨ (a.1 = b.1 ∧ a.2 ≤ b.2)))

instance : DecidableRel ijLt := fun a b =>
  inferInstanceAs (Decidable (a.1 < b.1 ∨ (a.1 = b.1 ∧ a.2 < b.2)))

/-- Key-only comparison used by `create`'s sort on two-dimensional keys. -/
def entryLe2 (p q : (Int × Int) × Int) : Prop := ijLe p.1 q.1

instance : DecidableRel entryLe2 := fun p q => inferInstanceAs (Decidable (ijLe p.1 q.1))

instance : IsTotal ((Int × Int) × Int) entryLe2 :=
  ⟨by
    intro p q
    rcases lt_trichotomy p.1.1 q.1.1 with h | h | h
    · exact Or.inl (Or.inl h)
    · rcases le_total p.1.2 q.1.2 with h2 | h2
      · exact Or.inl (Or.inr ⟨h, h2⟩)
      · exact Or.inr (Or.inr ⟨h.symm, h2⟩)
    · exact Or.inr (Or.inl h)⟩

instance : IsTrans ((Int × Int) × Int) entryLe2 :=
  ⟨by
    intro a b c h1 h2
    rcases h1 with h1 | ⟨h1e, h1le⟩
    · rcases h2 with h2 | ⟨h2e, _⟩
      · exact Or.inl (lt_trans h1 h2)
      · exact Or.inl (h2e ▸ h1)
    · rcases h2 with h2 | ⟨h2e, h2le⟩
      · exact Or.inl (h1e ▸ h2)
      · exact Or.inr ⟨h1e.trans h2e, le_trans h1le h2le⟩⟩

/-- Strict key comparison on 2D entries. -/
def entryLt2 (p q : (Int × Int) × Int) : Prop := ijLt p.1 q.1

instance : IsAntisymm ((Int × Int) × Int) entryLt2 :=
  ⟨by
    intro a b h1 h2
    rcases h1 with h1 | ⟨h1e, h1lt⟩
    · rcases h2 with h2 | ⟨h2e, _⟩
      · exact ((lt_asymm h1) h2).elim
      · exact absurd (h2e ▸ h1) (lt_irrefl _)
    · rcases h2 with h2 | ⟨_, h2lt⟩
      · exact absurd (h1e ▸ h2) (lt_irrefl _)
      · exact ((lt_asymm h1lt) h2lt).elim⟩

/-- `CatalogBuilder.create` on two-dimensional (pair) keys: fewer than two entries
fall back to a dictionary, otherwise sort by key (Python tuple order is
lexicographic), return the `None` sentinel on duplicate keys, and since every key is
a two-element sequence, delegate to the 2D selector. -/
def CatalogBuilder.create2 (catalog : List ((Int × Int) × Int)) :
    Except PyErr (Option Catalog2) :=
  if catalog.length < 2 then .ok (some (.dictionary (orderedDict catalog)))
  else
    let sorted := List.insertionSort entryLe2 catalog
    if contains_duplicates (sorted.map Prod.fst) then .ok none
    else CatalogBuilder.create_catalog_2 sorted

/-- Looking up a key on the value returned by `CatalogBuilder.create` (subscripting
the `None` sentinel would be a Python `TypeError`). -/
def catLookup (c : Except PyErr (Option Catalog1)) (key : Int) : Except PyErr Int :=
  match c with
  | .ok (some cat) => cat.getitem key
  | .ok none => .error .typeError
  | .error e => .error e

/-- The trace-header fields of `toolkit.py`'s `TraceHeader` that `catalog_traces`
reads: `ns`, `cdp`, `Inline3D`, `Crossline3D`. -/
structure TraceHeaderRec where
  ns : Int
  cdp : Int
  inline3D : Int
  crossline3D : Int
deriving DecidableEq, Repr

def REEL_HEADER_NUM_BYTES : Int := 3600

def TRACE_HEADER_NUM_BYTES : Int := 240

def READ_PROPORTION : ℚ := 3 / 4

/-- The scanning loop of `catalog_traces`, as the list of
`(trace_number, parsed header, pos_begin)` records it accumulates.  The file is
modelled by its byte length and an oracle `hdr` giving the header parsed at the
n-th successful 240-byte read; `fh.read(240)` returns fewer than 240 bytes exactly
when fewer than 240 bytes remain.  The `fuel` argument only forces termination
(each iteration consumes at least 240 bytes of a finite file). -/
def scanRecs (hdr : Nat → TraceHeaderRec) (bps fileLength : Int) :
    Nat → Int → Nat → List (Nat × TraceHeaderRec × Int)
  | 0, _, _ => []
  | fuel + 1, pos_begin, trace_number =>
    if fileLength - pos_begin < TRACE_HEADER_NUM_BYTES then []
    else
      let th := hdr trace_number
      (trace_number, th, pos_begin) ::
        scanRecs hdr bps fileLength fuel
          (pos_begin + TRACE_HEADER_NUM_BYTES + th.ns * bps) (trace_number + 1)

/-- The progress values emitted by the scanning loop of `catalog_traces`: each
iteration (including the final one that hits the short read) first reports
`_READ_PROPORTION * pos_begin / length`. -/
def scanProgress (hdr : Nat → TraceHeaderRec) (bps fileLength : Int) :
    Nat → Int → Nat → List ℚ
  | 0, _, _ => []
  | fuel + 1, pos_begin, trace_number =>
    let p : ℚ := READ_PROPORTION * (pos_begin : ℚ) / (fileLength : ℚ)
    if fileLength - pos_begin < TRACE_HEADER_NUM_BYTES then [p]
    else
      p :: scanProgress hdr bps fileLength fuel
        (pos_begin + TRACE_HEADER_NUM_BYTES + (hdr trace_number).ns * bps) (trace_number + 1)

/-- The observable result of `catalog_traces`: the four catalogs and the complete
sequence of values passed to the progress callback, in order. -/
structure CatalogTracesResult where
  traceOffsetCatalog : Except PyErr (Option Catalog1)
  traceLengthCatalog : Except PyErr (Option Catalog1)
  cdpCatalog : Except PyErr (Option Catalog1)
  lineCatalog : Except PyErr (Option Catalog2)
  progressValues : List ℚ

/-- `toolkit.catalog_traces`: one forward pass from byte 3600 feeding the four
catalog builders, then the four `create()` calls, with the progress emissions of
the loop followed by the five post-loop emissions
`0.75, 0.75 + 0.75/4, 0.75 + 0.75/2, 0.75 + 0.75*3/4, 1` exactly as in the source. -/
def catalog_traces (hdr : Nat → TraceHeaderRec) (bps fileLength : Int) (fuel : Nat) :
    CatalogTracesResult :=
  let recs := scanRecs hdr bps fileLength fuel REEL_HEADER_NUM_BYTES 0
  { traceOffsetCatalog := CatalogBuilder.create1 (recs.map (fun r => ((r.1 : Int), r.2.2)))
    traceLengthCatalog := CatalogBuilder.create1 (recs.map (fun r => ((r.1 : Int), r.2.1.ns)))
    cdpCatalog := CatalogBuilder.create1 (recs.map (fun r => (r.2.1.cdp, (r.1 : Int))))
    lineCatalog := CatalogBuilder.create2
      (recs.map (fun r => ((r.2.1.inline3D, r.2.1.crossline3D), (r.1 : Int))))
    progressValues :=
      scanProgress hdr bps fileLength fuel REEL_HEADER_NUM_BYTES 0 ++
        [READ_PROPORTION, READ_PROPORTION + READ_PROPORTION / 4,
         READ_PROPORTION + READ_PROPORTION / 2, READ_PROPORTION + READ_PROPORTION * 3 / 4, 1] }

/-- The capabilities of a `SegYReader3D` that the extraction guards consult. -/
structure SegYReader3D where
  hasTraceIndex : Int → Bool
  inlineNumbers : List Int

/-- `segpy_numpy.extract.extract_trace`, up to its guard: an absent trace index
raises `ValueError("Inline number {} not present in {}")`.  The remainder of the
function (sample selection and array construction through the external numpy
runtime) is abstracted as the successful unit result. -/
def extract_trace (reader : SegYReader3D) (trace_index : Int) : Except PyErr Unit :=
  if ¬ reader.hasTraceIndex trace_index then .error .valueError
  else .ok ()

/-- `segpy_numpy.extract.extract_inline_3d`, up to its guard: an inline number not
among `reader_3d.inline_numbers()` raises `ValueError`.  The remainder (crossline
and sample normalization and array filling through the external numpy runtime) is
abstracted as the successful unit result. -/
def extract_inline_3d (reader_3d : SegYReader3D) (inline_number : Int) : Except PyErr Unit :=
  if inline_number ∉ reader_3d.inlineNumbers then .error .valueError
  else .ok ()

/-! Infrastructure lemmas about the embedded utility functions. -/

lemma hasStride_iff (xs : List Int) (d : Int) :
    hasStride d xs = true ↔ ∀ i, i + 1 < xs.length → xs.getD (i + 1) 0 = xs.getD i 0 + d := by
  induction xs with
  | nil => simp [hasStride]
  | cons x xs ih =>
    cases xs with
    | nil => simp [hasStride]
    | cons y rest =>
      rw [show hasStride d (x :: y :: rest) = ((y - x == d) && hasStride d (y :: rest)) from rfl,
        Bool.and_eq_true, beq_iff_eq, ih]
      constructor
      · rintro ⟨h1, h2⟩ i hi
        cases i with
        | zero => simp only [List.getD_cons_succ, List.getD_cons_zero]; omega
        | succ n =>
          rw [List.getD_cons_succ, List.getD_cons_succ]
          exact h2 n (by simpa using hi)
      · intro h
        refine ⟨?_, ?_⟩
        · have h0 := h 0 (by simp)
          simp only [List.getD_cons_succ, List.getD_cons_zero] at h0
          omega
        · intro i hi
          have := h (i + 1) (by simpa using hi)
          simpa only [List.getD_cons_succ] using this

lemma measure_stride_cons₂ (x y : Int) (rest : List Int) :
    measure_stride (x :: y :: rest) =
      if hasStride (y - x) (x :: y :: rest) then some (y - x) else none := rfl

lemma measure_stride_succ_getD {xs : List Int} {d : Int} (h : measure_stride xs = some d) :
    ∀ i, i + 1 < xs.length → xs.getD (i + 1) 0 = xs.getD i 0 + d := by
  match xs with
  | [] => intro i hi; simp at hi
  | [x] => intro i hi; simp at hi
  | x :: y :: rest =>
    rw [measure_stride_cons₂] at h
    by_cases hs : hasStride (y - x) (x :: y :: rest) = true
    · rw [if_pos hs] at h
      obtain rfl : y - x = d := by simpa using h
      exact (hasStride_iff _ _).mp hs
    · rw [if_neg hs] at h; cases h

lemma measure_stride_getD {xs : List Int} {d : Int} (h : measure_stride xs = some d) :
    ∀ i, i < xs.length → xs.getD i 0 = xs.getD 0 0 + i * d := by
  intro i
  induction i with
  | zero => intro _; simp
  | succ n ih =>
    intro hi
    have hn : n < xs.length := by omega
    rw [measure_stride_succ_getD h n (by omega), ih hn]
    push_cast
    ring

lemma measure_stride_head_diff {x y : Int} {rest : List Int} {d : Int}
    (h : measure_stride (x :: y :: rest) = some d) : d = y - x := by
  rw [measure_stride_cons₂] at h
  by_cases hs : hasStride (y - x) (x :: y :: rest) = true
  · rw [if_pos hs] at h; simpa using h.symm
  · rw [if_neg hs] at h; cases h

lemma measure_stride_eq_of_arith {xs : List Int} {d : Int} (hl : 2 ≤ xs.length)
    (h : ∀ i, i + 1 < xs.length → xs.getD (i + 1) 0 = xs.getD i 0 + d) :
    measure_stride xs = some d := by
  match xs, hl with
  | x :: y :: rest, _ =>
    have h0 := h 0 (by simp)
    simp only [List.getD_cons_succ, List.getD_cons_zero] at h0
    have hyx : y - x = d := by omega
    rw [measure_stride_cons₂, hyx, if_pos ((hasStride_iff _ _).mpr h)]

lemma fmod_eq_zero_iff_dvd (a b : Int) : a.fmod b = 0 ↔ b ∣ a := by
  constructor
  · intro h
    refine ⟨a.fdiv b, ?_⟩
    have := Int.fmod_add_fdiv a b
    omega
  · rintro ⟨c, rfl⟩
    rw [mul_comm]
    exact Int.mul_fmod_left c b

lemma getLastD_cons_eq_getD {α : Type} (a : α) (l : List α) (dflt : α) :
    l.getLastD a = (a :: l).getD l.length dflt := by
  induction l generalizing a with
  | nil => simp
  | cons b l ih =>
    rw [List.getLastD_cons, ih b]
    simp

lemma contains_duplicates_eq_false_iff {α : Type} [DecidableEq α] (l : List α) :
    contains_duplicates l = false ↔ l.Nodup := by
  unfold contains_duplicates
  simp only [decide_eq_false_iff_not, not_not]
  constructor
  · intro h
    exact List.dedup_eq_self.mp ((List.dedup_sublist l).eq_of_length h)
  · intro h
    rw [List.dedup_eq_self.mpr h]

lemma orderedDict_foldl {α β : Type} [DecidableEq α] :
    ∀ (l acc : List (α × β)),
      (∀ p ∈ l, p.1 ∉ acc.map Prod.fst) → (l.map Prod.fst).Nodup →
      l.foldl (fun acc kv => orderedDictUpd acc kv.1 kv.2) acc = acc ++ l := by
  intro l
  induction l with
  | nil => intro acc _ _; simp
  | cons p l ih =>
    intro acc hdisj hnd
    simp only [List.foldl_cons]
    have hp : p.1 ∉ acc.map Prod.fst := hdisj p (List.mem_cons_self p l)
    rw [show orderedDictUpd acc p.1 p.2 = acc ++ [p] by
      unfold orderedDictUpd; rw [if_neg hp]]
    rw [ih (acc ++ [p]) ?_ ?_]
    · simp
    · intro q hq
      simp only [List.map_append, List.mem_append, List.map_cons, List.map_nil,
        List.mem_singleton, not_or]
      refine ⟨fun hmem => hdisj q (List.mem_cons_of_mem p hq) hmem, ?_⟩
      simp only [List.map_cons, List.nodup_cons] at hnd
      intro heq
      have : q.1 ∈ l.map Prod.fst := List.mem_map_of_mem Prod.fst hq
      rw [heq] at this
      exact hnd.1 this
    · simp only [List.map_cons, List.nodup_cons] at hnd
      exact hnd.2

lemma orderedDict_eq_self {α β : Type} [DecidableEq α] (l : List (α × β))
    (h : (l.map Prod.fst).Nodup) : orderedDict l = l := by
  unfold orderedDict
  rw [orderedDict_foldl l [] (by simp) h]
  simp

lemma pairwise_keyLt_of_le_nodup {l : List (Int × Int)} (hle : List.Pairwise keyLe l)
    (hnd : (l.map Prod.fst).Nodup) : List.Pairwise keyLt l := by
  have hne : List.Pairwise (fun a b : Int × Int => a.1 ≠ b.1) l := List.pairwise_map.mp hnd
  exact (hle.and hne).imp (fun h => lt_of_le_of_ne h.1 h.2)

lemma nodup_keys_of_pairwise_keyLt {l : List (Int × Int)} (hp : List.Pairwise keyLt l) :
    (l.map Prod.fst).Nodup :=
  List.pairwise_map.mpr (hp.imp fun h => ne_of_lt h)

lemma contains_duplicates_eq_true_iff {α : Type} [DecidableEq α] (l : List α) :
    contains_duplicates l = true ↔ ¬ l.Nodup := by
  rw [← contains_duplicates_eq_false_iff]
  cases contains_duplicates l <;> simp

lemma create1_sorted_eq {l : List (Int × Int)} (hp : List.Pairwise keyLt l)
    (hl : 2 ≤ l.length) : CatalogBuilder.create1 l = CatalogBuilder.create_catalog_1 l := by
  have hs : List.insertionSort keyLe l = l :=
    List.Sorted.insertionSort_eq (hp.imp fun h => le_of_lt h)
  have hnd : contains_duplicates (l.map Prod.fst) = false :=
    (contains_duplicates_eq_false_iff _).mpr (nodup_keys_of_pairwise_keyLt hp)
  unfold CatalogBuilder.create1
  rw [if_neg (show ¬ l.length < 2 by omega)]
  simp only [hs, hnd, Bool.false_eq_true, if_false]

lemma pyRange_pairwise {start stop step : Int} (hstep : 0 < step) :
    List.Pairwise (· < ·) (pyRange start stop step) := by
  unfold pyRange
  refine (List.pairwise_map (f := fun i : Nat => start + (i : Int) * step)).mpr ?_
  refine (List.pairwise_lt_range _).imp ?_
  intro i j h
  have : (i : Int) < (j : Int) := by exact_mod_cast h
  have := mul_lt_mul_of_pos_right this hstep
  omega

lemma pairwise_grid {is js : List Int} (hi : List.Pairwise (· < ·) is)
    (hj : List.Pairwise (· < ·) js) :
    List.Pairwise ijLt (is.flatMap (fun i => js.map (fun j => (i, j)))) := by
  induction is with
  | nil => simp
  | cons a is2 ih =>
    rw [List.flatMap_cons, List.pairwise_append]
    rw [List.pairwise_cons] at hi
    refine ⟨?_, ih hi.2, ?_⟩
    · rw [List.pairwise_map]
      exact hj.imp (fun h => Or.inr ⟨rfl, h⟩)
    · intro x hx y hy
      obtain ⟨jx, _, rfl⟩ := List.mem_map.mp hx
      obtain ⟨i2, hi2, hyi⟩ := List.mem_flatMap.mp hy
      obtain ⟨j2, _, rfl⟩ := List.mem_map.mp hyi
      exact Or.inl (hi.1 i2 hi2)

lemma regularConstantCatalog_init_ok_iff {a b d v : Int} {c : Catalog1} :
    RegularConstantCatalog.init a b d v = .ok c ↔
      d ≠ 0 ∧ (b - a).fmod d = 0 ∧ c = .regularConstant a b d v := by
  unfold RegularConstantCatalog.init
  split_ifs with h1 h2 <;> simp_all [eq_comm]

lemma regularCatalog_init_ok_iff {a b d : Int} {vs : List Int} {c : Catalog1} :
    RegularCatalog.init a b d vs = .ok c ↔
      d ≠ 0 ∧ (b - a).fmod d = 0 ∧ 1 + (b - a).fdiv d = (vs.length : Int) ∧
        c = .regular a b d vs := by
  unfold RegularCatalog.init
  split_ifs with h1 h2 h3 <;> simp_all [eq_comm]

lemma linearRegularCatalog_init_ok_iff {a b d v0 vN e : Int} {c : Catalog1} :
    LinearRegularCatalog.init a b d v0 vN e = .ok c ↔
      d ≠ 0 ∧ (b - a).fmod d = 0 ∧ e ≠ 0 ∧ (vN - v0).fmod e = 0 ∧
        (b - a).fdiv d = (vN - v0).fdiv e ∧ b - a ≠ 0 ∧
        c = .linearRegular a b d v0 vN e := by
  unfold LinearRegularCatalog.init
  split_ifs with h1 h2 h3 h4 h5 h6 <;> simp_all [eq_comm]

/-! Claim theorems. -/

/-- C1: the spec claims that for every sequence of pairs with pairwise-distinct keys,
`CatalogBuilder.create()` returns a catalog mapping each input key to its input
value.  The code instead reaches the final
`assert (index_stride is not None) and (value_stride is not None)` of
`_create_catalog_1` and raises `AssertionError` whenever the (distinct, sorted)
keys have no common stride but the values do: witnessed by the input
`[(1, 10), (2, 20), (4, 30)]`. -/
theorem c1_create_crashes_on_irregular_keys_linear_values :
    CatalogBuilder.create1 [(1, 10), (2, 20), (4, 30)] = .error .assertionError := by decide

/-- C2: the spec claims `RowMajorCatalog.__getitem__` validates bounds on both key
components and raises `KeyError` when either is out of range (and that lookup of a
key outside `iter` raises `KeyError`).  Because the source guard is
`not (i_min <= i <= i_max) and (j_min <= j <= j_max)`, a key whose `i` is in range
but whose `j` is out of range is *not* rejected: on `RowMajorCatalog(0, 1, 0, 1, 0)`
the key `(0, 5)` is not contained, yet `__getitem__` returns 5. -/
theorem c2_rowMajor_getitem_misses_crossline_bounds :
    (Catalog2.rowMajor 0 1 0 1 0).contains (0, 5) = false ∧
    (Catalog2.rowMajor 0 1 0 1 0).getitem (0, 5) = .ok 5 := by decide

/-- C3: the spec claims `len(C)` equals the number of keys yielded by `iter(C)`, with
the RowMajor count `(i_max - i_min + 1) * (j_max - j_min + 1)`.  The source's
`RowMajorCatalog.__len__` is `(i_max - i_min) * (j_max + 1 - j_min)`: on
`RowMajorCatalog(1, 2, 1, 3, 1)` it returns 3 while `__iter__` yields 6 keys (and
the claim's corrected formula gives 6). -/
theorem c3_rowMajor_len_disagrees_with_iter :
    (Catalog2.rowMajor 1 2 1 3 1).len = 3 ∧
    (Catalog2.rowMajor 1 2 1 3 1).iterKeys.length = 6 ∧
    (2 - 1 + 1) * (3 - 1 + 1) = 6 := by decide

/-- C6 counterexample: the claim says `extract_trace` on an absent trace index and
`extract_inline_3d` on an absent inline number raise `KeyError`; on a reader with
no traces at all, both raise `ValueError` instead. -/
theorem c6_extract_raises_valueError_not_keyError :
    extract_trace ⟨fun _ => false, []⟩ 0 = .error .valueError ∧
    extract_trace ⟨fun _ => false, []⟩ 0 ≠ .error .keyError ∧
    extract_inline_3d ⟨fun _ => false, []⟩ 7 = .error .valueError ∧
    extract_inline_3d ⟨fun _ => false, []⟩ 7 ≠ .error .keyError := by
  refine ⟨rfl, ?_, rfl, ?_⟩ <;> intro h <;> cases h

/-- C6 amended: `extract_trace` called with a trace index the reader does not have,
and `extract_inline_3d` called with an inline number not among the reader's inline
numbers, each raise `ValueError`. -/
theorem c6_absent_lookup_raises_valueError (reader : SegYReader3D)
    (trace_index inline_number : Int)
    (ht : reader.hasTraceIndex trace_index = false)
    (hi : inline_number ∉ reader.inlineNumbers) :
    extract_trace reader trace_index = .error .valueError ∧
    extract_inline_3d reader inline_number = .error .valueError := by
  unfold extract_trace extract_inline_3d
  rw [if_pos (by simp [ht]), if_pos hi]
  exact ⟨rfl, rfl⟩

theorem c6_absent_lookup_raises_valueError_witness :
    extract_trace ⟨fun _ => false, [3]⟩ 1 = .error .valueError ∧
    extract_inline_3d ⟨fun _ => false, [3]⟩ 7 = .error .valueError :=
  c6_absent_lookup_raises_valueError ⟨fun _ => false, [3]⟩ 1 7 rfl (by decide)

/-- C7: the spec claims every progress value lies in [0, 1], the sequence is
monotonically non-decreasing, and the last 0.25 is split equally across the four
catalog finalizations.  The source instead emits
`0.75 + 0.75/4, 0.75 + 0.75/2, 0.75 + 0.75*3/4` after the scan: on an empty file
(3600 bytes) the emitted sequence is `[3/4, 3/4, 15/16, 9/8, 21/16, 1]`, which
contains values above 1 and decreases at its final step. -/
theorem c7_progress_values_exceed_one :
    (catalog_traces (fun _ => ⟨0, 0, 0, 0⟩) 4 3600 1).progressValues =
      [3/4, 3/4, 15/16, 9/8, 21/16, 1] ∧
    (1 : ℚ) < 9/8 ∧ (1 : ℚ) < 21/16 ∧ (21/16 : ℚ) > 1 := by
  refine ⟨?_, by norm_num, by norm_num, by norm_num⟩
  show scanProgress (fun _ => ⟨0, 0, 0, 0⟩) 4 3600 1 REEL_HEADER_NUM_BYTES 0 ++ _ = _
  norm_num [scanProgress, READ_PROPORTION, REEL_HEADER_NUM_BYTES, TRACE_HEADER_NUM_BYTES]

/-- C8: for every sequence of added pairs with at least two entries and a duplicated
key, `CatalogBuilder.create()` returns the `None` sentinel (for scalar keys and for
2-tuple keys alike). -/
theorem c8_duplicate_keys_yield_none
    (l1 : List (Int × Int)) (l2 : List ((Int × Int) × Int))
    (h1len : 2 ≤ l1.length) (h1dup : ¬ (l1.map Prod.fst).Nodup)
    (h2len : 2 ≤ l2.length) (h2dup : ¬ (l2.map Prod.fst).Nodup) :
    CatalogBuilder.create1 l1 = .ok none ∧ CatalogBuilder.create2 l2 = .ok none := by
  constructor
  · unfold CatalogBuilder.create1
    rw [if_neg (show ¬ l1.length < 2 by omega)]
    have hperm : (List.insertionSort keyLe l1).Perm l1 := List.perm_insertionSort _ _
    have hdup : contains_duplicates ((List.insertionSort keyLe l1).map Prod.fst) = true := by
      rw [contains_duplicates_eq_true_iff]
      intro h
      exact h1dup ((hperm.map Prod.fst).nodup_iff.mp h)
    simp only [hdup, if_true]
  · unfold CatalogBuilder.create2
    rw [if_neg (show ¬ l2.length < 2 by omega)]
    have hperm : (List.insertionSort entryLe2 l2).Perm l2 := List.perm_insertionSort _ _
    have hdup : contains_duplicates ((List.insertionSort entryLe2 l2).map Prod.fst) = true := by
      rw [contains_duplicates_eq_true_iff]
      intro h
      exact h2dup ((hperm.map Prod.fst).nodup_iff.mp h)
    simp only [hdup, if_true]

theorem c8_duplicate_keys_yield_none_witness :
    CatalogBuilder.create1 [(1, 10), (1, 20)] = .ok none ∧
    CatalogBuilder.create2 [((1, 1), 10), ((1, 1), 20)] = .ok none :=
  c8_duplicate_keys_yield_none [(1, 10), (1, 20)] [((1, 1), 10), ((1, 1), 20)]
    (by decide) (by decide) (by decide) (by decide)

/-- C9: for every `LinearRegularCatalog` whose constructor succeeds, looking up any
contained key `k` computes an exactly integral value (the denominator-1 assertion
never fails) equal to `value_start + ((k - key_min) / key_stride) * value_stride`. -/
theorem c9_linearRegular_lookup_integral
    (key_min key_max key_stride value_start value_stop value_stride : Int) (cat : Catalog1)
    (hinit : LinearRegularCatalog.init key_min key_max key_stride value_start value_stop
      value_stride = .ok cat)
    (key : Int) (hlo : key_min ≤ key) (hhi : key ≤ key_max)
    (hstride : (key - key_min).fmod key_stride = 0) :
    cat.getitem key = .ok (value_start + (key - key_min).fdiv key_stride * value_stride) := by
  rw [linearRegularCatalog_init_ok_iff] at hinit
  obtain ⟨hd, hkm, he, hvm, hcount, hrange, rfl⟩ := hinit
  obtain ⟨N, hN⟩ := (fmod_eq_zero_iff_dvd _ _).mp hkm
  obtain ⟨M, hM⟩ := (fmod_eq_zero_iff_dvd _ _).mp hvm
  obtain ⟨t, ht⟩ := (fmod_eq_zero_iff_dvd _ _).mp hstride
  have hfdivk : (key_max - key_min).fdiv key_stride = N := by
    rw [hN, Int.mul_fdiv_cancel_left N hd]
  have hfdivv : (value_stop - value_start).fdiv value_stride = M := by
    rw [hM, Int.mul_fdiv_cancel_left M he]
  have hMN : M = N := by rw [hfdivk, hfdivv] at hcount; omega
  have hfdivt : (key - key_min).fdiv key_stride = t := by
    rw [ht, Int.mul_fdiv_cancel_left t hd]
  have hNne : N ≠ 0 := by
    intro h
    rw [h, mul_zero] at hN
    exact hrange hN
  have hcast : ((value_stop - value_start : Int) : ℚ) / ((key_max - key_min : Int) : ℚ) *
      ((key - key_min : Int) : ℚ) + ((value_start : Int) : ℚ)
      = ((value_start + t * value_stride : Int) : ℚ) := by
    rw [hN, hM, hMN, ht]
    have hcne : ((key_stride : ℚ)) ≠ 0 := by exact_mod_cast hd
    have hNneQ : ((N : ℚ)) ≠ 0 := by exact_mod_cast hNne
    push_cast
    field_simp
    ring
  rw [hfdivt]
  simp only [Catalog1.getitem]
  rw [if_neg (by simp [hlo, hhi]), if_neg hd, if_neg (by simp [hstride])]
  simp only [hcast, Rat.den_intCast, Rat.num_intCast, if_true]

theorem c9_linearRegular_lookup_integral_witness :
    LinearRegularCatalog.init 0 15 5 1000 1030 10 =
      .ok (.linearRegular 0 15 5 1000 1030 10) ∧
    Catalog1.getitem (.linearRegular 0 15 5 1000 1030 10) 10 = .ok 1020 := by
  refine ⟨by decide, ?_⟩
  have h := c9_linearRegular_lookup_integral 0 15 5 1000 1030 10
    (.linearRegular 0 15 5 1000 1030 10) (by decide) 10 (by decide) (by decide) (by decide)
  exact h.trans (by decide)

lemma getD_map {α β : Type} (f : α → β) (l : List α) (i : Nat) (d : α) :
    (l.map f).getD i (f d) = f (l.getD i d) := by
  rw [List.getD_eq_getElem?_getD, List.getD_eq_getElem?_getD, List.getElem?_map]
  cases l[i]? <;> simp

lemma measure_stride_getD_map {f : (Int × Int) → Int} (hf0 : f (0, 0) = 0)
    {l : List (Int × Int)} {d : Int} (h : measure_stride (l.map f) = some d) :
    ∀ i, i < l.length → f (l.getD i (0, 0)) = f (l.getD 0 (0, 0)) + i * d := by
  intro i hi
  have hg := measure_stride_getD h i (by simpa using hi)
  rw [show (0 : Int) = f (0, 0) from hf0.symm] at hg
  rw [getD_map f l i (0, 0), getD_map f l 0 (0, 0)] at hg
  exact hg

lemma measure_stride_last {f : (Int × Int) → Int} (hf0 : f (0, 0) = 0)
    {x : Int × Int} {rest : List (Int × Int)} {d : Int}
    (h : measure_stride ((x :: rest).map f) = some d) :
    f (rest.getLastD x) = f x + (rest.length : Int) * d := by
  have hg := measure_stride_getD_map hf0 h rest.length (by simp)
  rw [getLastD_cons_eq_getD x rest ((0 : Int), (0 : Int))]
  simpa using hg

lemma measure_stride_keys_pos {a b : Int × Int} {t : List (Int × Int)} {d : Int}
    (hp : List.Pairwise keyLt (a :: b :: t))
    (h : measure_stride ((a :: b :: t).map Prod.fst) = some d) : 0 < d := by
  rw [List.map_cons, List.map_cons] at h
  have hd := measure_stride_head_diff h
  have hab : keyLt a b := (List.pairwise_cons.mp hp).1 b (by simp)
  have : a.1 < b.1 := hab
  omega

/-- C5: given at least two entries with distinct scalar keys, sorted by key, the 1D
selector chooses the variant per the decision table over
`(measure_stride keys, measure_stride values)`: (none, none) gives Dictionary;
(d, 0) gives RegularConstant(kmin, kmax, d, v); (none, 0) gives Constant;
(d, none) gives Regular(kmin, kmax, d, values); (d, e≠0) gives
LinearRegular(kmin, kmax, d, v0, vN, e). -/
theorem c5_one_dim_selector_decision_table
    (a b : Int × Int) (t : List (Int × Int))
    (hp : List.Pairwise keyLt (a :: b :: t)) :
    (measure_stride ((a :: b :: t).map Prod.fst) = none →
     measure_stride ((a :: b :: t).map Prod.snd) = none →
     CatalogBuilder.create_catalog_1 (a :: b :: t) =
       .ok (some (.dictionary (orderedDict (a :: b :: t))))) ∧
    (∀ d, measure_stride ((a :: b :: t).map Prod.fst) = some d →
     measure_stride ((a :: b :: t).map Prod.snd) = some 0 →
     CatalogBuilder.create_catalog_1 (a :: b :: t) =
       .ok (some (.regularConstant a.1 ((b :: t).getLastD a).1 d a.2))) ∧
    (measure_stride ((a :: b :: t).map Prod.fst) = none →
     measure_stride ((a :: b :: t).map Prod.snd) = some 0 →
     CatalogBuilder.create_catalog_1 (a :: b :: t) =
       .ok (some (.constant (sortedFrozenSet ((a :: b :: t).map Prod.fst)) a.2))) ∧
    (∀ d, measure_stride ((a :: b :: t).map Prod.fst) = some d →
     measure_stride ((a :: b :: t).map Prod.snd) = none →
     CatalogBuilder.create_catalog_1 (a :: b :: t) =
       .ok (some (.regular a.1 ((b :: t).getLastD a).1 d ((a :: b :: t).map Prod.snd)))) ∧
    (∀ d e, measure_stride ((a :: b :: t).map Prod.fst) = some d →
     measure_stride ((a :: b :: t).map Prod.snd) = some e → e ≠ 0 →
     CatalogBuilder.create_catalog_1 (a :: b :: t) =
       .ok (some (.linearRegular a.1 ((b :: t).getLastD a).1 d a.2
         ((b :: t).getLastD a).2 e))) := by
  refine ⟨?_, ?_, ?_, ?_, ?_⟩
  · intro h1 h2
    simp only [CatalogBuilder.create_catalog_1, h1, h2]
  · intro d h1 h2
    have hveq : ((b :: t).getLastD a).2 = a.2 := by
      have := measure_stride_last (f := Prod.snd) rfl h2
      simpa using this
    have hdpos : 0 < d := measure_stride_keys_pos hp h1
    have hkmax : ((b :: t).getLastD a).1 = a.1 + ((b :: t).length : Int) * d :=
      measure_stride_last (f := Prod.fst) rfl h1
    simp only [CatalogBuilder.create_catalog_1, h1, h2]
    rw [if_pos trivial, if_neg (not_ne_iff.mpr hveq.symm)]
    unfold RegularConstantCatalog.init
    rw [if_neg (by omega), if_neg ?_]
    · rfl
    · have hsub : ((b :: t).getLastD a).1 - a.1 = ((b :: t).length : Int) * d := by omega
      rw [hsub, Int.mul_fmod_left]
      simp
  · intro h1 h2
    have hveq : ((b :: t).getLastD a).2 = a.2 := by
      have := measure_stride_last (f := Prod.snd) rfl h2
      simpa using this
    simp only [CatalogBuilder.create_catalog_1, h1, h2]
    rw [if_pos trivial, if_neg (not_ne_iff.mpr hveq.symm)]
  · intro d h1 h2
    have hdpos : 0 < d := measure_stride_keys_pos hp h1
    have hkmax : ((b :: t).getLastD a).1 = a.1 + ((b :: t).length : Int) * d :=
      measure_stride_last (f := Prod.fst) rfl h1
    have hsub : ((b :: t).getLastD a).1 - a.1 = ((b :: t).length : Int) * d := by omega
    simp only [CatalogBuilder.create_catalog_1, h1, h2]
    unfold RegularCatalog.init
    rw [if_neg (by omega), if_neg (by rw [hsub, Int.mul_fmod_left]; simp), if_neg ?_]
    · rfl
    · rw [hsub, Int.mul_fdiv_cancel _ (by omega)]
      simp only [List.length_map, List.length_cons]
      push_cast
      omega
  · intro d e h1 h2 he
    have hdpos : 0 < d := measure_stride_keys_pos hp h1
    have hkmax : ((b :: t).getLastD a).1 = a.1 + ((b :: t).length : Int) * d :=
      measure_stride_last (f := Prod.fst) rfl h1
    have hvmax : ((b :: t).getLastD a).2 = a.2 + ((b :: t).length : Int) * e :=
      measure_stride_last (f := Prod.snd) rfl h2
    have hsub : ((b :: t).getLastD a).1 - a.1 = ((b :: t).length : Int) * d := by omega
    have hvsub : ((b :: t).getLastD a).2 - a.2 = ((b :: t).length : Int) * e := by omega
    have hlen : ((b :: t).length : Int) ≠ 0 := by
      simp only [List.length_cons]
      omega
    simp only [CatalogBuilder.create_catalog_1, h1, h2]
    rw [if_neg he]
    unfold LinearRegularCatalog.init
    rw [if_neg (by omega), if_neg (by rw [hsub, Int.mul_fmod_left]; simp), if_neg (by simp [he]),
      if_neg (by rw [hvsub, Int.mul_fmod_left]; simp),
      if_neg (by
        rw [hsub, hvsub, Int.mul_fdiv_cancel _ (by omega), Int.mul_fdiv_cancel _ he]
        simp),
      if_neg (by
        rw [hsub]
        exact mul_ne_zero hlen (by omega))]
    rfl

theorem c5_one_dim_selector_decision_table_witness :
    CatalogBuilder.create_catalog_1 [(10, 100), (20, 100), (30, 100), (40, 100)] =
      .ok (some (.regularConstant 10 40 10 100)) ∧
    CatalogBuilder.create_catalog_1 [(0, 1000), (5, 1010), (10, 1020), (15, 1030)] =
      .ok (some (.linearRegular 0 15 5 1000 1030 10)) := by
  constructor
  · have h := (c5_one_dim_selector_decision_table (10, 100) (20, 100)
      [(30, 100), (40, 100)] (by decide)).2.1 10 (by decide) (by decide)
    exact h.trans (by decide)
  · have h := (c5_one_dim_selector_decision_table (0, 1000) (5, 1010)
      [(10, 1020), (15, 1030)] (by decide)).2.2.2.2 5 10 (by decide) (by decide) (by decide)
    exact h.trans (by decide)

lemma regularConstant_stride_one_getitem (kmin kmax v key : Int)
    (hlo : kmin ≤ key) (hhi : key ≤ kmax) :
    Catalog1.getitem (.regularConstant kmin kmax 1 v) key = .ok v := by
  simp only [Catalog1.getitem]
  rw [if_neg (not_not.mpr ⟨hlo, hhi⟩), if_neg one_ne_zero, if_neg (by simp [Int.fmod_one])]

lemma regular_stride_one_getitem (kmin kmax : Int) (vals : List Int) (key : Int)
    (hlo : kmin ≤ key) (hhi : key ≤ kmax) :
    Catalog1.getitem (.regular kmin kmax 1 vals) key =
      (match vals[(key - kmin).toNat]? with
       | some v => .ok v
       | none => .error .indexError) := by
  simp only [Catalog1.getitem]
  rw [if_neg (not_not.mpr ⟨hlo, hhi⟩), if_neg one_ne_zero, if_neg (by simp [Int.fmod_one]),
    Int.fdiv_one]

lemma linearRegular_stride_one_getitem (kmin kmax v0 vN e key L : Int)
    (hL : kmax - kmin = L) (hLne : L ≠ 0) (hv : vN - v0 = L * e)
    (hlo : kmin ≤ key) (hhi : key ≤ kmax) :
    Catalog1.getitem (.linearRegular kmin kmax 1 v0 vN e) key =
      .ok (v0 + (key - kmin) * e) := by
  simp only [Catalog1.getitem]
  rw [if_neg (not_not.mpr ⟨hlo, hhi⟩), if_neg one_ne_zero, if_neg (by simp [Int.fmod_one])]
  have hcast : ((vN - v0 : Int) : ℚ) / ((kmax - kmin : Int) : ℚ) * ((key - kmin : Int) : ℚ)
      + ((v0 : Int) : ℚ) = ((v0 + (key - kmin) * e : Int) : ℚ) := by
    rw [hv, hL]
    have hLQ : ((L : Int) : ℚ) ≠ 0 := Int.cast_ne_zero.mpr hLne
    push_cast
    field_simp
    ring
  simp only [hcast, Rat.den_intCast, Rat.num_intCast, if_true]

lemma create1_consecutive (l : List (Int × Int))
    (hkeys : ∀ i, i < l.length → (l.getD i ((0 : Int), (0 : Int))).1 = (i : Int)) :
    ∀ i, i < l.length →
      catLookup (CatalogBuilder.create1 l) (i : Int) = .ok ((l.getD i (0, 0)).2) := by
  match l with
  | [] => intro i hi; simp at hi
  | [p] =>
    intro i hi
    have hi0 : i = 0 := by simpa using hi
    subst hi0
    have hp0 : p.1 = 0 := by simpa using hkeys 0 (by simp)
    simp [CatalogBuilder.create1, orderedDict, orderedDictUpd, catLookup, Catalog1.getitem,
      List.lookup, hp0]
  | a :: b :: t =>
    have hlen : (a :: b :: t).length = t.length + 2 := by simp
    have h0 : a.1 = 0 := by simpa using hkeys 0 (by simp)
    have hget : ∀ i (hi : i < (a :: b :: t).length), ((a :: b :: t)[i]).1 = (i : Int) := by
      intro i hi
      have hk := hkeys i hi
      rwa [List.getD_eq_getElem?_getD, List.getElem?_eq_getElem hi, Option.getD_some] at hk
    have hp : List.Pairwise keyLt (a :: b :: t) := by
      rw [List.pairwise_iff_getElem]
      intro i j hi hj hij
      show ((a :: b :: t)[i]).1 < ((a :: b :: t)[j]).1
      rw [hget i hi, hget j hj]
      exact_mod_cast hij
    have hkgetD : ∀ j, j < (a :: b :: t).length →
        (((a :: b :: t).map Prod.fst).getD j 0) = (j : Int) := by
      intro j hj
      rw [show (0 : Int) = Prod.fst ((0 : Int), (0 : Int)) from rfl, getD_map]
      exact hkeys j hj
    have hks : measure_stride ((a :: b :: t).map Prod.fst) = some 1 := by
      apply measure_stride_eq_of_arith (by simp)
      intro i hi
      rw [List.length_map] at hi
      rw [hkgetD (i + 1) hi, hkgetD i (by omega)]
      push_cast
      ring
    have hLlt : (b :: t).length < (a :: b :: t).length := by simp
    have hlast1 : ((b :: t).getLastD a).1 = ((b :: t).length : Int) := by
      rw [getLastD_cons_eq_getD a (b :: t) ((0 : Int), (0 : Int))]
      exact hkeys (b :: t).length hLlt
    have hLcast : ((b :: t).length : Int) = (t.length : Int) + 1 := by
      simp [List.length_cons]
    have hLne : ((b :: t).length : Int) ≠ 0 := by omega
    have hcr : CatalogBuilder.create1 (a :: b :: t) =
        CatalogBuilder.create_catalog_1 (a :: b :: t) :=
      create1_sorted_eq hp (by omega)
    intro i hi
    have hibound : (i : Int) ≤ ((b :: t).getLastD a).1 := by
      rw [hlast1, hLcast]
      rw [hlen] at hi
      omega
    have hilo : a.1 ≤ (i : Int) := by
      rw [h0]
      positivity
    have hgd : (a :: b :: t).getD i ((0 : Int), (0 : Int)) = (a :: b :: t)[i] := by
      rw [List.getD_eq_getElem?_getD, List.getElem?_eq_getElem hi, Option.getD_some]
    rcases hv : measure_stride ((a :: b :: t).map Prod.snd) with _ | e
    · -- value stride None: RegularCatalog branch
      have hred : CatalogBuilder.create_catalog_1 (a :: b :: t) =
          .ok (some (.regular a.1 ((b :: t).getLastD a).1 1 ((a :: b :: t).map Prod.snd))) := by
        simp only [CatalogBuilder.create_catalog_1, hks, hv]
        unfold RegularCatalog.init
        rw [if_neg one_ne_zero, if_neg (by simp [Int.fmod_one]),
          if_neg (by
            rw [Int.fdiv_one, hlast1, h0]
            simp only [List.length_map, hlen, List.length_cons, sub_zero]
            push_cast
            omega)]
        rfl
      rw [hcr, hred]
      simp only [catLookup]
      rw [regular_stride_one_getitem _ _ _ _ hilo hibound]
      have hidx : (((i : Nat) : Int) - a.1).toNat = i := by
        rw [h0]
        simp
      rw [hidx]
      have hvali : ((a :: b :: t).map Prod.snd)[i]? = some (((a :: b :: t)[i]).2) := by
        rw [List.getElem?_map, List.getElem?_eq_getElem hi]
        rfl
      rw [hvali, hgd]
    · by_cases he : e = 0
      · -- value stride 0: RegularConstantCatalog branch
        subst he
        have hveq : ((b :: t).getLastD a).2 = a.2 := by
          have := measure_stride_last (f := Prod.snd) rfl hv
          simpa using this
        have hvi : ((a :: b :: t).getD i ((0 : Int), (0 : Int))).2 = a.2 := by
          have := measure_stride_getD_map (f := Prod.snd) rfl hv i hi
          simpa using this
        have hred : CatalogBuilder.create_catalog_1 (a :: b :: t) =
            .ok (some (.regularConstant a.1 ((b :: t).getLastD a).1 1 a.2)) := by
          simp only [CatalogBuilder.create_catalog_1, hks, hv]
          rw [if_pos trivial, if_neg (not_ne_iff.mpr hveq.symm)]
          unfold RegularConstantCatalog.init
          rw [if_neg one_ne_zero, if_neg (by simp [Int.fmod_one])]
          rfl
        rw [hcr, hred]
        simp only [catLookup]
        rw [regularConstant_stride_one_getitem _ _ _ _ hilo hibound, hvi]
      · -- value stride e ≠ 0: LinearRegularCatalog branch
        have hvlast : ((b :: t).getLastD a).2 = a.2 + ((b :: t).length : Int) * e :=
          measure_stride_last (f := Prod.snd) rfl hv
        have hvi : ((a :: b :: t).getD i ((0 : Int), (0 : Int))).2 = a.2 + (i : Int) * e := by
          have := measure_stride_getD_map (f := Prod.snd) rfl hv i hi
          simpa using this
        have hred : CatalogBuilder.create_catalog_1 (a :: b :: t) =
            .ok (some (.linearRegular a.1 ((b :: t).getLastD a).1 1 a.2
              ((b :: t).getLastD a).2 e)) := by
          simp only [CatalogBuilder.create_catalog_1, hks, hv]
          rw [if_neg he]
          unfold LinearRegularCatalog.init
          rw [if_neg one_ne_zero, if_neg (by simp [Int.fmod_one]), if_neg (by simp [he]),
            if_neg (by
              have hsub : ((b :: t).getLastD a).2 - a.2 = ((b :: t).length : Int) * e := by
                omega
              rw [hsub, Int.mul_fmod_left]
              simp),
            if_neg (by
              have hsub1 : ((b :: t).getLastD a).1 - a.1 = ((b :: t).length : Int) := by omega
              have hsub2 : ((b :: t).getLastD a).2 - a.2 = ((b :: t).length : Int) * e := by
                omega
              rw [hsub1, hsub2, Int.fdiv_one, Int.mul_fdiv_cancel _ he]
              simp),
            if_neg (by
              have hsub1 : ((b :: t).getLastD a).1 - a.1 = ((b :: t).length : Int) := by omega
              rw [hsub1]
              exact hLne)]
          rfl
        rw [hcr, hred]
        simp only [catLookup]
        rw [linearRegular_stride_one_getitem _ _ _ _ _ _ ((b :: t).length : Int)
          (by omega) hLne (by omega) hilo hibound]
        rw [hvi, h0, sub_zero]

lemma scanRecs_spec (hdr : Nat → TraceHeaderRec) (bps fileLength : Int) :
    ∀ (fuel : Nat) (pos : Int) (k : Nat),
      (∀ i, i < (scanRecs hdr bps fileLength fuel pos k).length →
        ((scanRecs hdr bps fileLength fuel pos k).getD i (0, ⟨0, 0, 0, 0⟩, 0)).1 = k + i ∧
        ((scanRecs hdr bps fileLength fuel pos k).getD i (0, ⟨0, 0, 0, 0⟩, 0)).2.1 =
          hdr (k + i)) ∧
      (0 < (scanRecs hdr bps fileLength fuel pos k).length →
        ((scanRecs hdr bps fileLength fuel pos k).getD 0 (0, ⟨0, 0, 0, 0⟩, 0)).2.2 = pos) ∧
      (∀ i, i + 1 < (scanRecs hdr bps fileLength fuel pos k).length →
        ((scanRecs hdr bps fileLength fuel pos k).getD (i + 1) (0, ⟨0, 0, 0, 0⟩, 0)).2.2 =
          ((scanRecs hdr bps fileLength fuel pos k).getD i (0, ⟨0, 0, 0, 0⟩, 0)).2.2 +
            TRACE_HEADER_NUM_BYTES +
            ((scanRecs hdr bps fileLength fuel pos k).getD i (0, ⟨0, 0, 0, 0⟩, 0)).2.1.ns *
              bps) := by
  intro fuel
  induction fuel with
  | zero => intro pos k; simp [scanRecs]
  | succ fuel ih =>
    intro pos k
    by_cases hstop : fileLength - pos < TRACE_HEADER_NUM_BYTES
    · simp [scanRecs, hstop]
    · have hrec : scanRecs hdr bps fileLength (fuel + 1) pos k =
          (k, hdr k, pos) ::
            scanRecs hdr bps fileLength fuel
              (pos + TRACE_HEADER_NUM_BYTES + (hdr k).ns * bps) (k + 1) := by
        rw [scanRecs]
        rw [if_neg hstop]
      obtain ⟨iha, ihb, ihc⟩ := ih (pos + TRACE_HEADER_NUM_BYTES + (hdr k).ns * bps) (k + 1)
      rw [hrec]
      refine ⟨?_, ?_, ?_⟩
      · intro i hilen
        cases i with
        | zero => simp
        | succ n =>
          rw [List.getD_cons_succ]
          have hn := iha n (by simpa using hilen)
          refine ⟨?_, ?_⟩
          · rw [hn.1]; omega
          · rw [hn.2]
            congr 1
            omega
      · intro _
        simp
      · intro i hilen
        cases i with
        | zero =>
          rw [List.getD_cons_succ, List.getD_cons_zero]
          have h0 := ihb (by simpa using hilen)
          rw [h0]
        | succ n =>
          rw [List.getD_cons_succ, List.getD_cons_succ]
          exact ihc n (by simpa using hilen)

lemma getD_map_of_lt {α β : Type} (f : α → β) (l : List α) {i : Nat} (hi : i < l.length)
    (d1 : α) (d2 : β) : (l.map f).getD i d2 = f (l.getD i d1) := by
  rw [List.getD_eq_getElem?_getD, List.getElem?_map, List.getElem?_eq_getElem hi,
    List.getD_eq_getElem?_getD, List.getElem?_eq_getElem hi]
  rfl

/-- C4: for every file scanned by `catalog_traces`, the offset catalog maps trace
index 0 to byte position 3600, and for every pair of consecutive indexed traces,
`offset[i+1] - offset[i] = 240 + length[i] * bps` where `length[i]` is the ns value
recorded in the length catalog. -/
theorem c4_offset_catalog_recurrence (hdr : Nat → TraceHeaderRec) (bps fileLength : Int)
    (fuel : Nat) :
    (0 < (scanRecs hdr bps fileLength fuel REEL_HEADER_NUM_BYTES 0).length →
      catLookup (catalog_traces hdr bps fileLength fuel).traceOffsetCatalog 0 = .ok 3600) ∧
    (∀ i : Nat, i + 1 < (scanRecs hdr bps fileLength fuel REEL_HEADER_NUM_BYTES 0).length →
      ∃ oi oi1 li : Int,
        catLookup (catalog_traces hdr bps fileLength fuel).traceOffsetCatalog (i : Int) =
          .ok oi ∧
        catLookup (catalog_traces hdr bps fileLength fuel).traceOffsetCatalog
          ((i : Int) + 1) = .ok oi1 ∧
        catLookup (catalog_traces hdr bps fileLength fuel).traceLengthCatalog (i : Int) =
          .ok li ∧
        oi1 - oi = 240 + li * bps) := by
  obtain ⟨ha, hb, hc⟩ := scanRecs_spec hdr bps fileLength fuel REEL_HEADER_NUM_BYTES 0
  set recs := scanRecs hdr bps fileLength fuel REEL_HEADER_NUM_BYTES 0 with hrecs
  have hoff : (catalog_traces hdr bps fileLength fuel).traceOffsetCatalog =
      CatalogBuilder.create1 (recs.map (fun r => ((r.1 : Int), r.2.2))) := rfl
  have hlencat : (catalog_traces hdr bps fileLength fuel).traceLengthCatalog =
      CatalogBuilder.create1 (recs.map (fun r => ((r.1 : Int), r.2.1.ns))) := rfl
  have hkeysOff : ∀ i, i < (recs.map (fun r => ((r.1 : Int), r.2.2))).length →
      ((recs.map (fun r => ((r.1 : Int), r.2.2))).getD i ((0 : Int), (0 : Int))).1 =
        (i : Int) := by
    intro i hilen
    rw [List.length_map] at hilen
    rw [getD_map_of_lt _ recs hilen (0, ⟨0, 0, 0, 0⟩, 0) _]
    show ((recs.getD i (0, ⟨0, 0, 0, 0⟩, 0)).1 : Int) = (i : Int)
    rw [(ha i hilen).1]
    simp
  have hkeysLen : ∀ i, i < (recs.map (fun r => ((r.1 : Int), r.2.1.ns))).length →
      ((recs.map (fun r => ((r.1 : Int), r.2.1.ns))).getD i ((0 : Int), (0 : Int))).1 =
        (i : Int) := by
    intro i hilen
    rw [List.length_map] at hilen
    rw [getD_map_of_lt _ recs hilen (0, ⟨0, 0, 0, 0⟩, 0) _]
    show ((recs.getD i (0, ⟨0, 0, 0, 0⟩, 0)).1 : Int) = (i : Int)
    rw [(ha i hilen).1]
    simp
  have hlookOff : ∀ i, i < recs.length →
      catLookup (CatalogBuilder.create1 (recs.map (fun r => ((r.1 : Int), r.2.2)))) (i : Int) =
        .ok ((recs.getD i (0, ⟨0, 0, 0, 0⟩, 0)).2.2) := by
    intro i hilen
    have h := create1_consecutive _ hkeysOff i (by simpa using hilen)
    rwa [getD_map_of_lt _ recs hilen (0, ⟨0, 0, 0, 0⟩, 0) _] at h
  have hlookLen : ∀ i, i < recs.length →
      catLookup (CatalogBuilder.create1 (recs.map (fun r => ((r.1 : Int), r.2.1.ns))))
          (i : Int) =
        .ok ((recs.getD i (0, ⟨0, 0, 0, 0⟩, 0)).2.1.ns) := by
    intro i hilen
    have h := create1_consecutive _ hkeysLen i (by simpa using hilen)
    rwa [getD_map_of_lt _ recs hilen (0, ⟨0, 0, 0, 0⟩, 0) _] at h
  constructor
  · intro hpos
    rw [hoff]
    have h0 := hlookOff 0 hpos
    rw [hb hpos] at h0
    exact h0
  · intro i hilen
    refine ⟨(recs.getD i (0, ⟨0, 0, 0, 0⟩, 0)).2.2,
      (recs.getD (i + 1) (0, ⟨0, 0, 0, 0⟩, 0)).2.2,
      (recs.getD i (0, ⟨0, 0, 0, 0⟩, 0)).2.1.ns, ?_, ?_, ?_, ?_⟩
    · rw [hoff]
      exact hlookOff i (by omega)
    · rw [hoff]
      have h := hlookOff (i + 1) hilen
      rwa [show ((i + 1 : Nat) : Int) = (i : Int) + 1 by push_cast; ring] at h
    · rw [hlencat]
      exact hlookLen i (by omega)
    · have hrec := hc i hilen
      rw [show TRACE_HEADER_NUM_BYTES = 240 from rfl] at hrec
      linarith

theorem c4_offset_catalog_recurrence_witness :
    0 < (scanRecs (fun _ => ⟨100, 5, 7, 9⟩) 4 4880 5 REEL_HEADER_NUM_BYTES 0).length ∧
    catLookup (catalog_traces (fun _ => ⟨100, 5, 7, 9⟩) 4 4880 5).traceOffsetCatalog 0 =
      .ok 3600 :=
  ⟨by decide,
    (c4_offset_catalog_recurrence (fun _ => ⟨100, 5, 7, 9⟩) 4 4880 5).1 (by decide)⟩

lemma map_some_eq_ok_some {x : Except PyErr Catalog1} {c : Catalog1} :
    x.map some = .ok (some c) ↔ x = .ok c := by
  cases x <;> simp [Except.map]

lemma insertionSort_keyLe_strict {l : List (Int × Int)} (hnd : (l.map Prod.fst).Nodup) :
    List.Pairwise keyLt (List.insertionSort keyLe l) := by
  have hs : List.Sorted keyLe (List.insertionSort keyLe l) :=
    List.sorted_insertionSort keyLe l
  have hnd1 : ((List.insertionSort keyLe l).map Prod.fst).Nodup :=
    (((List.perm_insertionSort keyLe l).map Prod.fst).nodup_iff).mpr hnd
  exact pairwise_keyLt_of_le_nodup hs hnd1

lemma insertionSort_eq_of_perm_1 {l1 l2 : List (Int × Int)} (hperm : l1.Perm l2)
    (hnd : (l1.map Prod.fst).Nodup) :
    List.insertionSort keyLe l1 = List.insertionSort keyLe l2 := by
  have hperm2 : (List.insertionSort keyLe l1).Perm (List.insertionSort keyLe l2) :=
    ((List.perm_insertionSort keyLe l1).trans hperm).trans
      (List.perm_insertionSort keyLe l2).symm
  have hnd2 : (l2.map Prod.fst).Nodup := ((hperm.map Prod.fst).nodup_iff).mp hnd
  exact List.eq_of_perm_of_sorted hperm2 (insertionSort_keyLe_strict hnd)
    (insertionSort_keyLe_strict hnd2)

lemma ijLt_ne {x y : Int × Int} (h : ijLt x y) : x ≠ y := by
  rcases h with h | ⟨h1, h2⟩
  · intro he
    rw [he] at h
    exact lt_irrefl _ h
  · intro he
    rw [he] at h2
    exact lt_irrefl _ h2

lemma ijLe_ne_lt {x y : Int × Int} (hle : ijLe x y) (hne : x ≠ y) : ijLt x y := by
  rcases hle with h | ⟨h1, h2⟩
  · exact Or.inl h
  · rcases lt_or_eq_of_le h2 with h3 | h3
    · exact Or.inr ⟨h1, h3⟩
    · cases x
      cases y
      simp only at h1 h3
      subst h1
      subst h3
      exact absurd rfl hne

lemma pairwise_entryLt2_of_le_nodup {l : List ((Int × Int) × Int)}
    (hle : List.Pairwise entryLe2 l) (hnd : (l.map Prod.fst).Nodup) :
    List.Pairwise entryLt2 l := by
  have hne : List.Pairwise (fun a b : (Int × Int) × Int => a.1 ≠ b.1) l :=
    List.pairwise_map.mp hnd
  exact (hle.and hne).imp (fun h => ijLe_ne_lt h.1 h.2)

lemma insertionSort_entryLe2_strict {l : List ((Int × Int) × Int)}
    (hnd : (l.map Prod.fst).Nodup) :
    List.Pairwise entryLt2 (List.insertionSort entryLe2 l) := by
  have hs : List.Sorted entryLe2 (List.insertionSort entryLe2 l) :=
    List.sorted_insertionSort entryLe2 l
  have hnd1 : ((List.insertionSort entryLe2 l).map Prod.fst).Nodup :=
    (((List.perm_insertionSort entryLe2 l).map Prod.fst).nodup_iff).mpr hnd
  exact pairwise_entryLt2_of_le_nodup hs hnd1

lemma insertionSort_eq_of_perm_2 {l1 l2 : List ((Int × Int) × Int)} (hperm : l1.Perm l2)
    (hnd : (l1.map Prod.fst).Nodup) :
    List.insertionSort entryLe2 l1 = List.insertionSort entryLe2 l2 := by
  have hperm2 : (List.insertionSort entryLe2 l1).Perm (List.insertionSort entryLe2 l2) :=
    ((List.perm_insertionSort entryLe2 l1).trans hperm).trans
      (List.perm_insertionSort entryLe2 l2).symm
  have hnd2 : (l2.map Prod.fst).Nodup := ((hperm.map Prod.fst).nodup_iff).mp hnd
  have h1 : List.Sorted entryLt2 (List.insertionSort entryLe2 l1) :=
    insertionSort_entryLe2_strict hnd
  have h2 : List.Sorted entryLt2 (List.insertionSort entryLe2 l2) :=
    insertionSort_entryLe2_strict hnd2
  exact List.eq_of_perm_of_sorted hperm2 h1 h2

lemma sortedFrozenSet_pairwise (xs : List Int) :
    List.Pairwise (· < ·) (sortedFrozenSet xs) := by
  unfold sortedFrozenSet
  have hs : List.Sorted (· ≤ ·) (List.insertionSort (· ≤ ·) xs) :=
    List.sorted_insertionSort _ xs
  have hle : List.Pairwise (fun a b : Int => a ≤ b)
      (List.insertionSort (· ≤ ·) xs).dedup :=
    List.Pairwise.sublist (List.dedup_sublist _) hs
  have hnd : List.Pairwise (fun a b : Int => a ≠ b)
      (List.insertionSort (· ≤ ·) xs).dedup :=
    List.nodup_dedup _
  exact (hle.and hnd).imp (fun h => lt_of_le_of_ne h.1 h.2)

lemma create_catalog_1_iterKeys_sorted {s : List (Int × Int)} (hp : List.Pairwise keyLt s)
    (hlen : 2 ≤ s.length) {c : Catalog1}
    (hc : CatalogBuilder.create_catalog_1 s = .ok (some c)) :
    List.Pairwise (· < ·) c.iterKeys := by
  match s, hlen with
  | a :: b :: t, _ =>
    rcases hks : measure_stride ((a :: b :: t).map Prod.fst) with _ | d
    · rcases hv : measure_stride ((a :: b :: t).map Prod.snd) with _ | e
      · simp only [CatalogBuilder.create_catalog_1, hks, hv] at hc
        have hceq : c = .dictionary (orderedDict (a :: b :: t)) := by
          simpa [eq_comm] using hc
        subst hceq
        show List.Pairwise (· < ·) ((orderedDict (a :: b :: t)).map Prod.fst)
        rw [orderedDict_eq_self _ (nodup_keys_of_pairwise_keyLt hp)]
        exact List.pairwise_map.mpr (hp.imp (fun h => h))
      · by_cases he : e = 0
        · subst he
          simp only [CatalogBuilder.create_catalog_1, hks, hv] at hc
          rw [if_pos trivial] at hc
          by_cases hass : a.2 ≠ ((b :: t).getLastD a).2
          · rw [if_pos hass] at hc
            simp at hc
          · rw [if_neg hass] at hc
            have hceq : c = .constant (sortedFrozenSet ((a :: b :: t).map Prod.fst)) a.2 := by
              simpa [eq_comm] using hc
            subst hceq
            exact sortedFrozenSet_pairwise _
        · simp only [CatalogBuilder.create_catalog_1, hks, hv] at hc
          rw [if_neg he] at hc
          simp at hc
    · have hdpos : 0 < d := measure_stride_keys_pos hp hks
      rcases hv : measure_stride ((a :: b :: t).map Prod.snd) with _ | e
      · simp only [CatalogBuilder.create_catalog_1, hks, hv] at hc
        rw [map_some_eq_ok_some, regularCatalog_init_ok_iff] at hc
        obtain ⟨_, _, _, hceq⟩ := hc
        subst hceq
        exact pyRange_pairwise hdpos
      · by_cases he : e = 0
        · subst he
          simp only [CatalogBuilder.create_catalog_1, hks, hv] at hc
          rw [if_pos trivial] at hc
          by_cases hass : a.2 ≠ ((b :: t).getLastD a).2
          · rw [if_pos hass] at hc
            simp at hc
          · rw [if_neg hass] at hc
            rw [map_some_eq_ok_some, regularConstantCatalog_init_ok_iff] at hc
            obtain ⟨_, _, hceq⟩ := hc
            subst hceq
            exact pyRange_pairwise hdpos
        · simp only [CatalogBuilder.create_catalog_1, hks, hv] at hc
          rw [if_neg he] at hc
          rw [map_some_eq_ok_some, linearRegularCatalog_init_ok_iff] at hc
          obtain ⟨_, _, _, _, _, _, hceq⟩ := hc
          subst hceq
          exact pyRange_pairwise hdpos

lemma create_catalog_2_iterKeys_sorted {s : List ((Int × Int) × Int)}
    (hp : List.Pairwise entryLt2 s) {c : Catalog2}
    (hc : CatalogBuilder.create_catalog_2 s = .ok (some c)) :
    List.Pairwise ijLt c.iterKeys := by
  simp only [CatalogBuilder.create_catalog_2] at hc
  rcases hrm : CatalogBuilder.is_row_major s (minmax (List.map (fun e => e.1.1) s)).1
      (minmax (List.map (fun e => e.1.2) s)).1 (minmax (List.map (fun e => e.1.2) s)).2
    with ⟨bb, od⟩
  rw [hrm] at hc
  cases bb with
  | false =>
    simp only [] at hc
    have hceq : c = .dictionary (orderedDict s) := by
      simpa [eq_comm] using hc
    subst hceq
    show List.Pairwise ijLt ((orderedDict s).map Prod.fst)
    rw [orderedDict_eq_self _ (List.pairwise_map.mpr (hp.imp (fun h => ijLt_ne h)))]
    exact List.pairwise_map.mpr (hp.imp (fun h => h))
  | true =>
    cases od with
    | none => simp at hc
    | some diff =>
      have hceq : c = .rowMajor (minmax (List.map (fun e => e.1.1) s)).1
          (minmax (List.map (fun e => e.1.1) s)).2 (minmax (List.map (fun e => e.1.2) s)).1
          (minmax (List.map (fun e => e.1.2) s)).2 diff := by
        simpa [eq_comm] using hc
      subst hceq
      exact pairwise_grid (pyRange_pairwise one_pos) (pyRange_pairwise one_pos)

/-- C10: for at least two entries with pairwise-distinct keys, the result of
`CatalogBuilder.create()` does not depend on the order in which the pairs were
added (every permutation yields the same result, hence the same variant,
key-to-value mapping and iteration order), and whenever a catalog is produced its
iteration yields keys in strictly ascending order (lexicographic for 2-tuple keys),
because `create()` sorts the accumulated entries by key before selecting a
variant. -/
theorem c10_create_order_independent :
    (∀ l1 l2 : List (Int × Int), l1.Perm l2 → (l1.map Prod.fst).Nodup → 2 ≤ l1.length →
      CatalogBuilder.create1 l1 = CatalogBuilder.create1 l2 ∧
      (∀ c : Catalog1, CatalogBuilder.create1 l1 = .ok (some c) →
        List.Pairwise (· < ·) c.iterKeys)) ∧
    (∀ m1 m2 : List ((Int × Int) × Int), m1.Perm m2 → (m1.map Prod.fst).Nodup →
      2 ≤ m1.length →
      CatalogBuilder.create2 m1 = CatalogBuilder.create2 m2 ∧
      (∀ c : Catalog2, CatalogBuilder.create2 m1 = .ok (some c) →
        List.Pairwise ijLt c.iterKeys)) := by
  constructor
  · intro l1 l2 hperm hnd hlen
    have hnd2 : (l2.map Prod.fst).Nodup := ((hperm.map Prod.fst).nodup_iff).mp hnd
    have hlen2 : 2 ≤ l2.length := by
      rw [← hperm.length_eq]
      omega
    have hdup1 : contains_duplicates ((List.insertionSort keyLe l1).map Prod.fst) = false :=
      (contains_duplicates_eq_false_iff _).mpr
        (((List.perm_insertionSort keyLe l1).map Prod.fst).nodup_iff.mpr hnd)
    have hdup2 : contains_duplicates ((List.insertionSort keyLe l2).map Prod.fst) = false :=
      (contains_duplicates_eq_false_iff _).mpr
        (((List.perm_insertionSort keyLe l2).map Prod.fst).nodup_iff.mpr hnd2)
    have hred1 : CatalogBuilder.create1 l1 =
        CatalogBuilder.create_catalog_1 (List.insertionSort keyLe l1) := by
      unfold CatalogBuilder.create1
      rw [if_neg (by omega)]
      simp only [hdup1, Bool.false_eq_true, if_false]
    have hred2 : CatalogBuilder.create1 l2 =
        CatalogBuilder.create_catalog_1 (List.insertionSort keyLe l2) := by
      unfold CatalogBuilder.create1
      rw [if_neg (by omega)]
      simp only [hdup2, Bool.false_eq_true, if_false]
    refine ⟨by rw [hred1, hred2, insertionSort_eq_of_perm_1 hperm hnd], ?_⟩
    intro c hc
    rw [hred1] at hc
    exact create_catalog_1_iterKeys_sorted (insertionSort_keyLe_strict hnd)
      (by rw [List.length_insertionSort]; omega) hc
  · intro m1 m2 hperm hnd hlen
    have hnd2 : (m2.map Prod.fst).Nodup := ((hperm.map Prod.fst).nodup_iff).mp hnd
    have hlen2 : 2 ≤ m2.length := by
      rw [← hperm.length_eq]
      omega
    have hdup1 : contains_duplicates ((List.insertionSort entryLe2 m1).map Prod.fst) = false :=
      (contains_duplicates_eq_false_iff _).mpr
        (((List.perm_insertionSort entryLe2 m1).map Prod.fst).nodup_iff.mpr hnd)
    have hdup2 : contains_duplicates ((List.insertionSort entryLe2 m2).map Prod.fst) = false :=
      (contains_duplicates_eq_false_iff _).mpr
        (((List.perm_insertionSort entryLe2 m2).map Prod.fst).nodup_iff.mpr hnd2)
    have hred1 : CatalogBuilder.create2 m1 =
        CatalogBuilder.create_catalog_2 (List.insertionSort entryLe2 m1) := by
      unfold CatalogBuilder.create2
      rw [if_neg (by omega)]
      simp only [hdup1, Bool.false_eq_true, if_false]
    have hred2 : CatalogBuilder.create2 m2 =
        CatalogBuilder.create_catalog_2 (List.insertionSort entryLe2 m2) := by
      unfold CatalogBuilder.create2
      rw [if_neg (by omega)]
      simp only [hdup2, Bool.false_eq_true, if_false]
    refine ⟨by rw [hred1, hred2, insertionSort_eq_of_perm_2 hperm hnd], ?_⟩
    intro c hc
    rw [hred1] at hc
    exact create_catalog_2_iterKeys_sorted (insertionSort_entryLe2_strict hnd) hc

theorem c10_create_order_independent_witness :
    CatalogBuilder.create1 [(20, 200), (10, 100)] =
      CatalogBuilder.create1 [(10, 100), (20, 200)] ∧
    CatalogBuilder.create2 [((1, 2), 5), ((1, 1), 4)] =
      CatalogBuilder.create2 [((1, 1), 4), ((1, 2), 5)] :=
  ⟨(c10_create_order_independent.1 [(20, 200), (10, 100)] [(10, 100), (20, 200)]
      (by decide) (by decide) (by decide)).1,
   (c10_create_order_independent.2 [((1, 2), 5), ((1, 1), 4)] [((1, 1), 4), ((1, 2), 5)]
      (by decide) (by decide) (by decide)).1⟩
